import Mathlib

/-!
Verification of the CSC4010 image transform-and-search pipeline.

The C sources are shallowly embedded: pixels are triples of mathematical
integers (C `int` arithmetic on the defined-behaviour, non-overflowing range;
C `/` truncates toward zero, embedded as `Int.tdiv`; C `^` is two's-complement
bitwise xor, embedded as `Int.xor`), rows are `List Pixel`, the match counter
array (C `unsigned long[]`) is `List Nat`, and the per-pixel loop of each
program variant is an explicit fold over the column indices.
-/

set_option maxRecDepth 4000

/-- Struct Pixel (rawimage.h lines 15-19): three signed integer channels. -/
structure Pixel where
  red : Int
  green : Int
  blue : Int
deriving DecidableEq, Repr

/-- Zero-valued pixel, used by the loaders for padding and as the read default. -/
def zeroPixel : Pixel := ⟨0, 0, 0⟩

/-- Greyscale (rawimage.h lines 199-205): avg = (r+g+b)/3 with C integer
division (truncation toward zero); all three channels become avg. -/
def Greyscale (p : Pixel) : Pixel :=
  let avg := Int.tdiv (p.red + p.green + p.blue) 3
  ⟨avg, avg, avg⟩

/-- XOR (rawimage.h lines 210-215): two's-complement bitwise xor of each
channel with val. -/
def XOR (p : Pixel) (val : Int) : Pixel :=
  ⟨Int.xor p.red val, Int.xor p.green val, Int.xor p.blue val⟩

/-- One search loop of process-b.c (lines 51-59 pre, 98-106 post): for each
index i of the search list, if the probed pixel equals search[i] on all three
channels, increment counter[i]. The counter array always has the search list's
length in the programs; extra entries of either list are left untouched. -/
def searchStep : List Pixel → Pixel → List Nat → List Nat
  | s :: ss, px, c :: cs => (if s = px then c + 1 else c) :: searchStep ss px cs
  | _, _, c => c

/-- Post-bleed value of the pixel at column p for p > 0 (process-b.c lines
62-89): pixlen starts at 10, the window start is p-10 unless p ≤ 10 in which
case the window starts at 0 and pixlen becomes p; each channel of the window
is summed, divided by pixlen (C division), and (average - current)/3 is added
to the current channel. -/
def bleedValue (row : List Pixel) (p : Nat) : Pixel :=
  let pixlen : Nat := if p > 10 then 10 else p
  let startpix : Nat := if p > 10 then p - 10 else 0
  let win := List.range' startpix (p - startpix)
  let rav : Int := (win.map (fun i => (row.getD i zeroPixel).red)).sum
  let gav : Int := (win.map (fun i => (row.getD i zeroPixel).green)).sum
  let bav : Int := (win.map (fun i => (row.getD i zeroPixel).blue)).sum
  let cur := row.getD p zeroPixel
  ⟨cur.red + Int.tdiv (Int.tdiv rav pixlen - cur.red) 3,
   cur.green + Int.tdiv (Int.tdiv gav pixlen - cur.green) 3,
   cur.blue + Int.tdiv (Int.tdiv bav pixlen - cur.blue) 3⟩

/-- Transform part of one iteration of the p-loop of process-b.c (lines
61-95): bleed in place when p > 0, then Greyscale, then XOR 13, each reading
the column written by the previous step. -/
def transformAtB (row : List Pixel) (p : Nat) : List Pixel :=
  let row1 := if 0 < p then row.set p (bleedValue row p) else row
  let row2 := row1.set p (Greyscale (row1.getD p zeroPixel))
  row2.set p (XOR (row2.getD p zeroPixel) 13)

/-- One full iteration of the p-loop of process-b.c (lines 48-107):
pre-search on the current pixel, bleed + greyscale + XOR in place,
post-search on the transformed pixel. -/
def processPixelB (search : List Pixel) (st : List Pixel × List Nat) (p : Nat) :
    List Pixel × List Nat :=
  let c1 := searchStep search (st.1.getD p zeroPixel) st.2
  let row2 := transformAtB st.1 p
  let c2 := searchStep search (row2.getD p zeroPixel) c1
  (row2, c2)

/-- The p-loop of process-b.c run for the first n columns. -/
def processLoopB (search : List Pixel) (row : List Pixel) (c : List Nat)
    (n : Nat) : List Pixel × List Nat :=
  (List.range n).foldl (processPixelB search) (row, c)

/-- The whole processing loop of process-b.c over one row (p runs over the
full line). -/
def processRowB (search : List Pixel) (row : List Pixel) (c : List Nat) :
    List Pixel × List Nat :=
  processLoopB search row c row.length

/-- Modelled from the spec's words (§4.1 step 2 and the bleed-boundary
property), for comparison with `bleedValue`: n = min(10, p); average the
red/green/blue channels of the n pixels at columns p-n .. p-1 with truncating
integer division; add (average - current)/3 to each channel. -/
def bleedSpecValue (row : List Pixel) (p : Nat) : Pixel :=
  let n : Nat := min 10 p
  let win := List.range' (p - n) n
  let ravg : Int := Int.tdiv ((win.map (fun i => (row.getD i zeroPixel).red)).sum) n
  let gavg : Int := Int.tdiv ((win.map (fun i => (row.getD i zeroPixel).green)).sum) n
  let bavg : Int := Int.tdiv ((win.map (fun i => (row.getD i zeroPixel).blue)).sum) n
  let cur := row.getD p zeroPixel
  ⟨cur.red + Int.tdiv (ravg - cur.red) 3,
   cur.green + Int.tdiv (gavg - cur.green) 3,
   cur.blue + Int.tdiv (bavg - cur.blue) 3⟩

/-- Increment slot i of the counter array (counter[i]++). Out-of-range
indices leave the array unchanged, matching that the programs only index
within the allocated length. -/
def incAt (c : List Nat) (i : Nat) : List Nat := c.set i (c.getD i 0 + 1)

/-- Number (0 or 1) of matches the search test contributes at index j for a
probed pixel: 1 exactly when j is in range and search[j] equals the pixel. -/
def hits (s : List Pixel) (px : Pixel) (j : Nat) : Nat :=
  if s[j]? = some px then 1 else 0

/-- One visit of search index i during a parallel search phase: test
search[i] against the captured pixel and increment counter[i] on a match
(the atomic counter[i]++ of process-b_tc2.c line 78). -/
def searchVisit (search : List Pixel) (px : Pixel) (c : List Nat) (i : Nat) :
    List Nat :=
  match search[i]? with
  | some s => if s = px then incAt c i else c
  | none => c

/-- A search phase executed by visiting the search indices in the order
`ord` (modelling an arbitrary OpenMP partition/interleaving of the i-loop of
process-b_tc2.c lines 70-80 and 134-144). -/
def searchFold (search : List Pixel) (px : Pixel) (c : List Nat) (ord : List Nat) :
    List Nat :=
  ord.foldl (searchVisit search px) c

/-- Post-bleed value in process-b_tc2.c (lines 88-113): the same channel
arithmetic as the sequential reference (sums over the window, division by
pixlen, plus a third of the difference). -/
def bleedValueTc2 (row : List Pixel) (p : Nat) : Pixel :=
  let pixlen : Nat := if p > 10 then 10 else p
  let startpix : Nat := if p > 10 then p - 10 else 0
  let win := List.range' startpix (p - startpix)
  let rav : Int := (win.map (fun i => (row.getD i zeroPixel).red)).sum
  let gav : Int := (win.map (fun i => (row.getD i zeroPixel).green)).sum
  let bav : Int := (win.map (fun i => (row.getD i zeroPixel).blue)).sum
  let cur := row.getD p zeroPixel
  ⟨cur.red + Int.tdiv (Int.tdiv rav pixlen - cur.red) 3,
   cur.green + Int.tdiv (Int.tdiv gav pixlen - cur.green) 3,
   cur.blue + Int.tdiv (Int.tdiv bav pixlen - cur.blue) 3⟩

/-- Phase 2 of process-b_tc2.c (lines 83-121): bleed guarded by p > 0 and
additionally by pixlen > 0, then Greyscale, then XOR 13. -/
def transformAtTc2 (row : List Pixel) (p : Nat) : List Pixel :=
  let pixlen : Nat := if p > 10 then 10 else p
  let row1 :=
    if 0 < p then (if 0 < pixlen then row.set p (bleedValueTc2 row p) else row)
    else row
  let row2 := row1.set p (Greyscale (row1.getD p zeroPixel))
  row2.set p (XOR (row2.getD p zeroPixel) 13)

/-- One per-pixel cycle of the phased barrier executor (process-b_tc2.c lines
57-148), sequentialized: capture the pixel into scalars, search-pre visiting
indices in order ordPre, single-thread bleed + greyscale + XOR, capture the
transformed pixel, search-post visiting indices in order ordPost. -/
def processPixelTc2 (search : List Pixel) (ordPre ordPost : List Nat)
    (st : List Pixel × List Nat) (p : Nat) : List Pixel × List Nat :=
  let px0 := st.1.getD p zeroPixel
  let c1 := searchFold search px0 st.2 ordPre
  let row2 := transformAtTc2 st.1 p
  let px1 := row2.getD p zeroPixel
  let c2 := searchFold search px1 c1 ordPost
  (row2, c2)

/-- The whole p-loop of process-b_tc2.c, with `ords p` giving the index
orders used by the two search phases of column p. -/
def processRowTc2 (search : List Pixel) (ords : Nat → List Nat × List Nat)
    (row : List Pixel) (c : List Nat) : List Pixel × List Nat :=
  (List.range row.length).foldl
    (fun st p => processPixelTc2 search (ords p).1 (ords p).2 st p) (row, c)

/-- Index range of tile tb in process-b_tc4.c (lines 82-86 and 147-150):
start = tb*TILE_I, end = min(start + TILE_I, search.length). -/
def tileIndices (T n tb : Nat) : List Nat :=
  List.range' (tb * T) (min (tb * T + T) n - tb * T)

/-- All search indices in tile order (process-b_tc4.c lines 80-96): tiles1 =
ceil(n / TILE_I) tiles, each scanned sequentially. -/
def tiledOrder (T n : Nat) : List Nat :=
  (List.range ((n + T - 1) / T)).flatMap (tileIndices T n)

/-- One per-pixel cycle of the tile-parallel executor (process-b_tc4.c lines
67-165), sequentialized: both search phases visit the indices in tile order;
the transform phase is the same single-thread block as in tc2. -/
def processPixelTc4 (search : List Pixel) (T : Nat)
    (st : List Pixel × List Nat) (p : Nat) : List Pixel × List Nat :=
  let px0 := st.1.getD p zeroPixel
  let c1 := searchFold search px0 st.2 (tiledOrder T search.length)
  let row2 := transformAtTc2 st.1 p
  let px1 := row2.getD p zeroPixel
  let c2 := searchFold search px1 c1 (tiledOrder T search.length)
  (row2, c2)

/-- The whole p-loop of process-b_tc4.c with tile size T. -/
def processRowTc4 (search : List Pixel) (T : Nat) (row : List Pixel)
    (c : List Nat) : List Pixel × List Nat :=
  (List.range row.length).foldl (processPixelTc4 search T) (row, c)

/-- Pointwise sum of two counter arrays (the merge loop of
process-a_tc2.c lines 103-107: counter[i] += local[i]); a missing tail is
treated as zeros. -/
def addCtr : List Nat → List Nat → List Nat
  | a :: as, b :: bs => (a + b) :: addCtr as bs
  | [], bs => bs
  | as, [] => as

/-- Match counts contributed by one row alone: the row processed from an
all-zero counter array (the per-thread calloc of process-a_tc2.c line 43). -/
def rowCounts (search : List Pixel) (row : List Pixel) : List Nat :=
  (processRowB search row (List.replicate search.length 0)).2

/-- Sum of the per-row counts over a list of rows. -/
def sumCtrs (search : List Pixel) : List (List Pixel) → List Nat
  | [] => []
  | row :: rest => addCtr (rowCounts search row) (sumCtrs search rest)

/-- Transformed contents of one row (independent of the incoming counters). -/
def transformRowB (search : List Pixel) (row : List Pixel) : List Pixel :=
  (processRowB search row []).1

/-- The row loop of the row-parallel variants (process-a_tc2.c lines 48-100,
process-a_tc3 lines 54-122) in sequential order, threading the shared counter
through the rows and collecting the transformed rows. -/
def processGrid (search : List Pixel) :
    List (List Pixel) → List Nat → List (List Pixel) × List Nat
  | [], c => ([], c)
  | row :: rest, c =>
    let r := processRowB search row c
    let g := processGrid search rest r.2
    (r.1 :: g.1, g.2)

/-- Thread-local counters of one thread of process-a_tc2.c: its rows
processed in order starting from the calloc'd all-zero array (lines 43-100). -/
def localCounts (search : List Pixel) (part : List (List Pixel)) : List Nat :=
  part.foldl (fun c row => (processRowB search row c).2)
    (List.replicate search.length 0)

/-- The merge pass of process-a_tc2.c (lines 103-107) over all threads:
each thread's local array is added into the shared counter. -/
def mergeLocals (search : List Pixel) (parts : List (List (List Pixel)))
    (c : List Nat) : List Nat :=
  parts.foldl (fun acc part => addCtr acc (localCounts search part)) c

/-- Struct Image (rawimage.h lines 22-27): shape fields plus the pixel rows. -/
structure Image where
  length : Nat
  lines : Nat
  linesize : Nat
  pixels : List (List Pixel)
deriving DecidableEq, Repr

/-- Shape computation of ImageData (rawimage.h lines 48-71): linesize 0 means
one line holding everything; otherwise lines = length / linesize, and a
positive remainder adds one padded line, extending length to the next
multiple of linesize. Returns (lines, length, linesize). -/
def imageDataShape (length linesize : Nat) : Nat × Nat × Nat :=
  if linesize = 0 then (1, length, length)
  else
    let tlines := length / linesize
    let remainder := length - tlines * linesize
    if 0 < remainder then (tlines + 1, length + (linesize - remainder), linesize)
    else (tlines, length, linesize)

/-- LoadFile (rawimage.h lines 161-195): the flat pixel stream `data` is
folded into the padded shape; slot (l, p) holds data[l*linesize + p] while
real data remains (the running counter) and the zero pixel afterwards. -/
def LoadFile (data : List Pixel) (linesize : Nat) : Image :=
  let s := imageDataShape data.length linesize
  { length := s.2.1, lines := s.1, linesize := s.2.2,
    pixels := (List.range s.1).map (fun l =>
      (List.range s.2.2).map (fun p => data.getD (l * s.2.2 + p) zeroPixel)) }

/-- WriteFile (rawimage.h lines 142-155): every line is written in full
(linesize pixels per line, lines lines), producing the flat output stream. -/
def WriteFile (img : Image) : List Pixel :=
  (List.range img.lines).flatMap (fun l =>
    (List.range img.linesize).map (fun p => (img.pixels.getD l []).getD p zeroPixel))

/-- The transform/search pass of process-b.c (lines 48-107) as a transformer
of the run state (image, search image, counters): the p-loop runs over
img.linesize on row 0 of the image, reading row 0 of the search image, which
is never written. -/
def transformPassB (st : Image × Image × List Nat) : Image × Image × List Nat :=
  let img := st.1
  let search := st.2.1
  let r := processLoopB (search.pixels.getD 0 []) (img.pixels.getD 0 [])
    st.2.2 img.linesize
  ({ img with pixels := img.pixels.set 0 r.1 }, search, r.2)

/-- The row-parallel run of process-a_tc2.c on a loaded image, sequentialized:
each of the img.lines rows is processed over img.linesize columns in order,
and the transformed rows replace the pixel rows; shape fields are copied. -/
def processGridA (search : List Pixel) (img : Image) (c : List Nat) :
    Image × List Nat :=
  let r := processGrid search img.pixels c
  ({ img with pixels := r.1 }, r.2)

/-- Outcome of the argument-handling prologue of a variant. -/
inductive ArgsOutcome where
  | usageError : ArgsOutcome
  | proceed : Option String → Option String → Option String → ArgsOutcome
deriving DecidableEq, Repr

/-- Argument handling of process-b.c (lines 16-23): with argument vector av
(so ac = av.length), the usage FatalError fires only when ac < 3; otherwise
the input, output and search filenames are read from av[1], av[2] and av[3]
(`none` models the NULL sentinel at av[ac] and beyond). -/
def parseArgsB (av : List String) : ArgsOutcome :=
  if av.length < 3 then .usageError
  else .proceed av[1]? av[2]? av[3]?

/-- Outcome of allocating and zero-initialising the match counter array. -/
inductive AllocOutcome where
  | fatal : String → AllocOutcome
  | nullDeref : AllocOutcome
  | ok : List Nat → AllocOutcome
deriving DecidableEq, Repr

/-- Counter setup of process-b.c (lines 39-41): malloc (modelled as an
Option, `none` = NULL) is followed directly by the zero-initialisation loop
with no NULL check, so a failed allocation with a nonempty search list writes
through the null pointer. -/
def initCounterB (alloc : Option Unit) (len : Nat) : AllocOutcome :=
  match alloc with
  | some _ => .ok (List.replicate len 0)
  | none => if 0 < len then .nullDeref else .ok []

/-- Counter setup of process-b_tc3.c (lines 47-48): the same malloc followed
by a NULL check that reports through FatalError before any use. -/
def initCounterTc3 (alloc : Option Unit) (len : Nat) : AllocOutcome :=
  match alloc with
  | some _ => .ok (List.replicate len 0)
  | none => .fatal "malloc failed for counter"

theorem searchStep_nil (px : Pixel) (c : List Nat) : searchStep [] px c = c := by
  cases c <;> rfl

theorem searchStep_length (s : List Pixel) (px : Pixel) :
    ∀ c : List Nat, (searchStep s px c).length = c.length := by
  induction s with
  | nil => intro c; rw [searchStep_nil]
  | cons x ss ih =>
    intro c
    cases c with
    | nil => rfl
    | cons c0 cs => simp [searchStep, ih]

theorem hits_nil (px : Pixel) (j : Nat) : hits [] px j = 0 := by
  simp [hits]

theorem hits_cons_zero (x : Pixel) (ss : List Pixel) (px : Pixel) :
    hits (x :: ss) px 0 = if x = px then 1 else 0 := by
  simp [hits]

theorem hits_cons_succ (x : Pixel) (ss : List Pixel) (px : Pixel) (j : Nat) :
    hits (x :: ss) px (j + 1) = hits ss px j := by
  simp [hits]

theorem searchStep_getElem? (s : List Pixel) (px : Pixel) :
    ∀ (cnt : List Nat) (j : Nat),
      (searchStep s px cnt)[j]? = cnt[j]?.map (fun v => v + hits s px j) := by
  induction s with
  | nil =>
    intro cnt j
    rw [searchStep_nil, hits_nil]
    cases cnt[j]? <;> simp
  | cons x ss ih =>
    intro cnt j
    cases cnt with
    | nil => simp [searchStep]
    | cons c0 cs =>
      cases j with
      | zero =>
        rw [hits_cons_zero]
        by_cases h : x = px <;> simp [searchStep, h]
      | succ jj =>
        rw [hits_cons_succ]
        simp only [searchStep, List.getElem?_cons_succ]
        exact ih cs jj

theorem incAt_getElem? (cnt : List Nat) (i j : Nat) :
    (incAt cnt i)[j]? = cnt[j]?.map (fun v => if i = j then v + 1 else v) := by
  unfold incAt
  by_cases h : i = j
  · subst h
    by_cases hl : i < cnt.length
    · rw [List.getElem?_set_self hl, List.getD_eq_getElem?_getD,
        List.getElem?_eq_getElem hl]
      simp
    · have h1 : cnt[i]? = none := List.getElem?_eq_none (by omega)
      have h2 : (cnt.set i (cnt.getD i 0 + 1))[i]? = none :=
        List.getElem?_eq_none (by rw [List.length_set]; omega)
      rw [h1, h2]
      rfl
  · rw [List.getElem?_set_ne h]
    cases cnt[j]? <;> simp [h]

theorem searchVisit_getElem? (search : List Pixel) (px : Pixel) (cnt : List Nat)
    (i j : Nat) :
    (searchVisit search px cnt i)[j]? =
      cnt[j]?.map (fun v => v + if i = j then hits search px i else 0) := by
  rcases hsi : search[i]? with _ | s
  · have hv : searchVisit search px cnt i = cnt := by simp [searchVisit, hsi]
    have hh : hits search px i = 0 := by simp [hits, hsi]
    rw [hv, hh]
    cases cnt[j]? <;> simp
  · by_cases hs : s = px
    · have hv : searchVisit search px cnt i = incAt cnt i := by
        simp [searchVisit, hsi, hs]
      have hh : hits search px i = 1 := by simp [hits, hsi, hs]
      rw [hv, hh, incAt_getElem?]
      cases cnt[j]? with
      | none => rfl
      | some v => by_cases hij : i = j <;> simp [hij]
    · have hv : searchVisit search px cnt i = cnt := by simp [searchVisit, hsi, hs]
      have hh : hits search px i = 0 := by simp [hits, hsi, hs]
      rw [hv, hh]
      cases cnt[j]? <;> simp

theorem searchVisit_length (search : List Pixel) (px : Pixel) (c : List Nat)
    (i : Nat) : (searchVisit search px c i).length = c.length := by
  unfold searchVisit incAt
  rcases search[i]? with _ | s
  · rfl
  · by_cases hs : s = px <;> simp [hs, List.length_set]

theorem searchFold_getElem? (search : List Pixel) (px : Pixel) :
    ∀ (ord : List Nat) (cnt : List Nat) (j : Nat),
      (searchFold search px cnt ord)[j]? =
        cnt[j]?.map (fun v => v + ord.count j * hits search px j) := by
  intro ord
  induction ord with
  | nil =>
    intro cnt j
    simp only [searchFold, List.foldl_nil, List.count_nil, Nat.zero_mul]
    cases cnt[j]? <;> simp
  | cons i rest ih =>
    intro cnt j
    have hstep : searchFold search px cnt (i :: rest) =
        searchFold search px (searchVisit search px cnt i) rest := rfl
    rw [hstep, ih, searchVisit_getElem?, List.count_cons]
    cases hcj : cnt[j]? with
    | none => rfl
    | some v =>
      simp only [Option.map_some']
      by_cases hij : i = j
      · subst hij
        simp [Nat.succ_mul, Nat.add_mul]
        omega
      · simp [hij]

theorem searchFold_length (search : List Pixel) (px : Pixel) :
    ∀ (ord : List Nat) (c : List Nat),
      (searchFold search px c ord).length = c.length := by
  intro ord
  induction ord with
  | nil => intro c; rfl
  | cons i rest ih =>
    intro c
    have hstep : searchFold search px c (i :: rest) =
        searchFold search px (searchVisit search px c i) rest := rfl
    rw [hstep, ih, searchVisit_length]

theorem searchFold_perm_eq (search : List Pixel) (px : Pixel) (ord : List Nat)
    (cnt : List Nat) (hc : cnt.length = search.length)
    (h : ord.Perm (List.range search.length)) :
    searchFold search px cnt ord = searchStep search px cnt := by
  apply List.ext_getElem?
  intro j
  rw [searchFold_getElem?, searchStep_getElem?]
  have hcount : ord.count j = (List.range search.length).count j := h.count_eq j
  by_cases hj : j < search.length
  · rw [hcount, List.count_eq_one_of_mem (List.nodup_range _) (List.mem_range.mpr hj)]
    simp
  · have hnone : cnt[j]? = none := List.getElem?_eq_none (by omega)
    rw [hnone]
    rfl

theorem addCtr_nil_left (b : List Nat) : addCtr [] b = b := by
  cases b <;> rfl

theorem addCtr_nil_right (a : List Nat) : addCtr a [] = a := by
  cases a <;> rfl

theorem addCtr_cons_cons (a0 b0 : Nat) (as bs : List Nat) :
    addCtr (a0 :: as) (b0 :: bs) = (a0 + b0) :: addCtr as bs := rfl

theorem addCtr_comm : ∀ a b : List Nat, addCtr a b = addCtr b a := by
  intro a
  induction a with
  | nil => intro b; rw [addCtr_nil_left, addCtr_nil_right]
  | cons a0 as ih =>
    intro b
    cases b with
    | nil => rw [addCtr_nil_left, addCtr_nil_right]
    | cons b0 bs => rw [addCtr_cons_cons, addCtr_cons_cons, ih bs, Nat.add_comm]

theorem addCtr_assoc : ∀ a b c : List Nat,
    addCtr (addCtr a b) c = addCtr a (addCtr b c) := by
  intro a
  induction a with
  | nil => intro b c; rw [addCtr_nil_left, addCtr_nil_left]
  | cons a0 as ih =>
    intro b c
    cases b with
    | nil => rw [addCtr_nil_right, addCtr_nil_left]
    | cons b0 bs =>
      cases c with
      | nil => rw [addCtr_nil_right, addCtr_nil_right]
      | cons c0 cs =>
        rw [addCtr_cons_cons, addCtr_cons_cons, addCtr_cons_cons,
          addCtr_cons_cons, ih bs cs, Nat.add_assoc]

theorem addCtr_length : ∀ a b : List Nat,
    (addCtr a b).length = max a.length b.length := by
  intro a
  induction a with
  | nil => intro b; rw [addCtr_nil_left]; simp
  | cons a0 as ih =>
    intro b
    cases b with
    | nil => rw [addCtr_nil_right]; simp
    | cons b0 bs => simp [addCtr_cons_cons, ih bs, Nat.succ_max_succ]

theorem addCtr_zeros_right : ∀ (c : List Nat) (n : Nat), n ≤ c.length →
    addCtr c (List.replicate n 0) = c := by
  intro c
  induction c with
  | nil =>
    intro n h
    have : n = 0 := by simpa using h
    subst this
    rfl
  | cons c0 cs ih =>
    intro n h
    cases n with
    | zero => rw [List.replicate_zero, addCtr_nil_right]
    | succ m =>
      rw [List.replicate_succ, addCtr_cons_cons, ih m (by simpa using h),
        Nat.add_zero]

theorem transformAtB_length (row : List Pixel) (p : Nat) :
    (transformAtB row p).length = row.length := by
  by_cases h : 0 < p <;> simp [transformAtB, h, List.length_set]

theorem transformAtB_getElem?_ne (row : List Pixel) (p j : Nat) (h : p ≠ j) :
    (transformAtB row p)[j]? = row[j]? := by
  simp only [transformAtB]
  rw [List.getElem?_set_ne h, List.getElem?_set_ne h]
  by_cases hp : 0 < p
  · rw [if_pos hp, List.getElem?_set_ne h]
  · rw [if_neg hp]

theorem bleedValueTc2_eq (row : List Pixel) (p : Nat) :
    bleedValueTc2 row p = bleedValue row p := rfl

theorem transformAtTc2_eq (row : List Pixel) (p : Nat) :
    transformAtTc2 row p = transformAtB row p := by
  rcases Nat.eq_zero_or_pos p with h | h
  · subst h
    simp [transformAtTc2, transformAtB]
  · have hpix : 0 < (if p > 10 then 10 else p) := by split <;> omega
    simp [transformAtTc2, transformAtB, h, hpix, bleedValueTc2_eq]

theorem processPixelB_fst (search : List Pixel) (st : List Pixel × List Nat)
    (p : Nat) : (processPixelB search st p).1 = transformAtB st.1 p := rfl

theorem processPixelB_snd_length (search : List Pixel)
    (st : List Pixel × List Nat) (p : Nat) :
    (processPixelB search st p).2.length = st.2.length := by
  simp [processPixelB, searchStep_length]

theorem processFold_fst_length (search : List Pixel) :
    ∀ (ps : List Nat) (row : List Pixel) (c : List Nat),
      ((ps.foldl (processPixelB search) (row, c)).1).length = row.length := by
  intro ps
  induction ps with
  | nil => intro row c; rfl
  | cons p ps ih =>
    intro row c
    rw [List.foldl_cons]
    exact (ih (transformAtB row p) ((processPixelB search (row, c) p).2)).trans
      (transformAtB_length row p)

theorem processFold_snd_length (search : List Pixel) :
    ∀ (ps : List Nat) (row : List Pixel) (c : List Nat),
      ((ps.foldl (processPixelB search) (row, c)).2).length = c.length := by
  intro ps
  induction ps with
  | nil => intro row c; rfl
  | cons p ps ih =>
    intro row c
    rw [List.foldl_cons]
    exact (ih (transformAtB row p) ((processPixelB search (row, c) p).2)).trans
      (processPixelB_snd_length search (row, c) p)

theorem processFold_fst_const (search : List Pixel) :
    ∀ (ps : List Nat) (row : List Pixel) (c c' : List Nat),
      (ps.foldl (processPixelB search) (row, c)).1 =
        (ps.foldl (processPixelB search) (row, c')).1 := by
  intro ps
  induction ps with
  | nil => intro row c c'; rfl
  | cons p ps ih =>
    intro row c c'
    rw [List.foldl_cons, List.foldl_cons]
    exact ih (transformAtB row p) _ _

theorem processFold_untouched (search : List Pixel) :
    ∀ (ps : List Nat) (row : List Pixel) (c : List Nat) (j : Nat),
      (∀ q ∈ ps, q ≠ j) →
      ((ps.foldl (processPixelB search) (row, c)).1)[j]? = row[j]? := by
  intro ps
  induction ps with
  | nil => intro row c j h; rfl
  | cons q ps ih =>
    intro row c j h
    rw [List.foldl_cons]
    exact (ih (transformAtB row q) ((processPixelB search (row, c) q).2) j
      (fun q' hq' => h q' (List.mem_cons_of_mem _ hq'))).trans
      (transformAtB_getElem?_ne row q j (h q (List.mem_cons_self _ _)))

theorem searchStep_addCtr : ∀ (s : List Pixel) (px : Pixel) (a b : List Nat),
    s.length ≤ b.length →
    searchStep s px (addCtr a b) = addCtr a (searchStep s px b) := by
  intro s
  induction s with
  | nil => intro px a b h; rw [searchStep_nil, searchStep_nil]
  | cons x ss ih =>
    intro px a b h
    cases b with
    | nil => simp at h
    | cons b0 bs =>
      cases a with
      | nil => rw [addCtr_nil_left, addCtr_nil_left]
      | cons a0 as =>
        rw [addCtr_cons_cons]
        simp only [searchStep]
        rw [ih px as bs (by simpa using h), addCtr_cons_cons]
        by_cases hx : x = px <;> simp [hx, Nat.add_assoc]

theorem processPixelB_addCtr (search : List Pixel) (row : List Pixel)
    (a b : List Nat) (p : Nat) (hb : search.length ≤ b.length) :
    processPixelB search (row, addCtr a b) p =
      ((processPixelB search (row, b) p).1,
        addCtr a (processPixelB search (row, b) p).2) := by
  simp only [processPixelB]
  rw [searchStep_addCtr search _ a b hb,
    searchStep_addCtr search _ a _ (by rw [searchStep_length]; exact hb)]

theorem processFold_addCtr (search : List Pixel) :
    ∀ (ps : List Nat) (row : List Pixel) (a b : List Nat),
      search.length ≤ b.length →
      ps.foldl (processPixelB search) (row, addCtr a b) =
        ((ps.foldl (processPixelB search) (row, b)).1,
          addCtr a (ps.foldl (processPixelB search) (row, b)).2) := by
  intro ps
  induction ps with
  | nil => intro row a b h; rfl
  | cons p ps ih =>
    intro row a b h
    rw [List.foldl_cons, List.foldl_cons, processPixelB_addCtr search row a b p h]
    have hb' : search.length ≤ ((processPixelB search (row, b) p).2).length := by
      rw [processPixelB_snd_length]
      exact h
    exact ih (processPixelB search (row, b) p).1 a
      (processPixelB search (row, b) p).2 hb'

theorem processFold_counter (search : List Pixel) (ps : List Nat)
    (row : List Pixel) (c : List Nat) (hc : c.length = search.length) :
    (ps.foldl (processPixelB search) (row, c)).2 =
      addCtr c ((ps.foldl (processPixelB search)
        (row, List.replicate search.length 0)).2) := by
  have h0 : addCtr c (List.replicate search.length 0) = c :=
    addCtr_zeros_right c _ (by omega)
  have h1 := processFold_addCtr search ps row c (List.replicate search.length 0)
    (by simp)
  rw [h0] at h1
  rw [h1]

theorem processRowB_fst (search : List Pixel) (row : List Pixel) (c : List Nat) :
    (processRowB search row c).1 = transformRowB search row :=
  processFold_fst_const search (List.range row.length) row c []

theorem processRowB_snd_length (search : List Pixel) (row : List Pixel)
    (c : List Nat) : (processRowB search row c).2.length = c.length :=
  processFold_snd_length search (List.range row.length) row c

theorem processRowB_fst_length (search : List Pixel) (row : List Pixel)
    (c : List Nat) : (processRowB search row c).1.length = row.length :=
  processFold_fst_length search (List.range row.length) row c

theorem rowCounts_length (search : List Pixel) (row : List Pixel) :
    (rowCounts search row).length = search.length := by
  unfold rowCounts
  rw [processRowB_snd_length, List.length_replicate]

theorem processRowB_counter (search : List Pixel) (row : List Pixel)
    (c : List Nat) (hc : c.length = search.length) :
    (processRowB search row c).2 = addCtr c (rowCounts search row) :=
  processFold_counter search (List.range row.length) row c hc

theorem sumCtrs_length_le (search : List Pixel) :
    ∀ l : List (List Pixel), (sumCtrs search l).length ≤ search.length := by
  intro l
  induction l with
  | nil => simp [sumCtrs]
  | cons row rest ih =>
    simp only [sumCtrs]
    rw [addCtr_length, rowCounts_length]
    omega

theorem sumCtrs_append (search : List Pixel) :
    ∀ l1 l2 : List (List Pixel),
      sumCtrs search (l1 ++ l2) =
        addCtr (sumCtrs search l1) (sumCtrs search l2) := by
  intro l1 l2
  induction l1 with
  | nil =>
    rw [List.nil_append, show sumCtrs search [] = [] from rfl, addCtr_nil_left]
  | cons row rest ih =>
    simp only [List.cons_append, sumCtrs, List.append_eq]
    rw [ih, addCtr_assoc]

theorem sumCtrs_perm (search : List Pixel) {l1 l2 : List (List Pixel)}
    (h : l1.Perm l2) : sumCtrs search l1 = sumCtrs search l2 := by
  induction h with
  | nil => rfl
  | cons x _ ih =>
    simp only [sumCtrs]
    rw [ih]
  | swap x y l =>
    simp only [sumCtrs]
    rw [← addCtr_assoc, addCtr_comm (rowCounts search y) (rowCounts search x),
      addCtr_assoc]
  | trans _ _ ih1 ih2 => rw [ih1, ih2]

theorem processGrid_fst (search : List Pixel) :
    ∀ (rows : List (List Pixel)) (c : List Nat),
      (processGrid search rows c).1 = rows.map (transformRowB search) := by
  intro rows
  induction rows with
  | nil => intro c; rfl
  | cons row rest ih =>
    intro c
    simp only [processGrid, List.map_cons]
    rw [ih, processRowB_fst]

theorem processGrid_snd (search : List Pixel) :
    ∀ (rows : List (List Pixel)) (c : List Nat), c.length = search.length →
      (processGrid search rows c).2 = addCtr c (sumCtrs search rows) := by
  intro rows
  induction rows with
  | nil =>
    intro c hc
    rw [show sumCtrs search [] = [] from rfl, addCtr_nil_right]
    rfl
  | cons row rest ih =>
    intro c hc
    simp only [processGrid, sumCtrs]
    rw [ih _ (by rw [processRowB_snd_length]; exact hc),
      processRowB_counter search row c hc, addCtr_assoc]

theorem countersFold_eq (search : List Pixel) :
    ∀ (part : List (List Pixel)) (c : List Nat), c.length = search.length →
      part.foldl (fun c row => (processRowB search row c).2) c =
        addCtr c (sumCtrs search part) := by
  intro part
  induction part with
  | nil =>
    intro c hc
    rw [List.foldl_nil, show sumCtrs search [] = [] from rfl, addCtr_nil_right]
  | cons row rest ih =>
    intro c hc
    rw [List.foldl_cons, ih _ (by rw [processRowB_snd_length]; exact hc),
      processRowB_counter search row c hc, addCtr_assoc]
    rfl

theorem localCounts_eq (search : List Pixel) (part : List (List Pixel)) :
    localCounts search part =
      addCtr (List.replicate search.length 0) (sumCtrs search part) :=
  countersFold_eq search part (List.replicate search.length 0) (by simp)

theorem localCounts_length (search : List Pixel) (part : List (List Pixel)) :
    (localCounts search part).length = search.length := by
  rw [localCounts_eq, addCtr_length, List.length_replicate]
  have := sumCtrs_length_le search part
  omega

theorem mergeLocals_eq (search : List Pixel) :
    ∀ (parts : List (List (List Pixel))) (c : List Nat),
      c.length = search.length →
      mergeLocals search parts c = addCtr c (sumCtrs search parts.flatten) := by
  intro parts
  induction parts with
  | nil =>
    intro c hc
    rw [show ([] : List (List (List Pixel))).flatten = [] from rfl,
      show sumCtrs search [] = [] from rfl, addCtr_nil_right]
    rfl
  | cons part rest ih =>
    intro c hc
    have h1 : addCtr c (localCounts search part) =
        addCtr c (sumCtrs search part) := by
      rw [localCounts_eq, ← addCtr_assoc, addCtr_zeros_right c _ (by omega)]
    have hlen : (addCtr c (localCounts search part)).length = search.length := by
      rw [addCtr_length, localCounts_length]
      omega
    have hstep : mergeLocals search (part :: rest) c =
        mergeLocals search rest (addCtr c (localCounts search part)) := rfl
    rw [hstep, ih _ hlen, h1, addCtr_assoc, List.flatten_cons, sumCtrs_append]

theorem processPixelTc2_eq (search : List Pixel) (ord1 ord2 : List Nat)
    (st : List Pixel × List Nat) (p : Nat) (hc : st.2.length = search.length)
    (h1 : ord1.Perm (List.range search.length))
    (h2 : ord2.Perm (List.range search.length)) :
    processPixelTc2 search ord1 ord2 st p = processPixelB search st p := by
  simp only [processPixelTc2, processPixelB]
  rw [transformAtTc2_eq]
  rw [searchFold_perm_eq search _ ord1 st.2 hc h1]
  rw [searchFold_perm_eq search _ ord2 _ (by rw [searchStep_length]; exact hc) h2]

theorem processFoldTc2_eq (search : List Pixel)
    (ords : Nat → List Nat × List Nat)
    (h : ∀ p, ((ords p).1).Perm (List.range search.length) ∧
      ((ords p).2).Perm (List.range search.length)) :
    ∀ (ps : List Nat) (st : List Pixel × List Nat),
      st.2.length = search.length →
      ps.foldl (fun st p => processPixelTc2 search (ords p).1 (ords p).2 st p) st =
        ps.foldl (processPixelB search) st := by
  intro ps
  induction ps with
  | nil => intro st hc; rfl
  | cons p ps ih =>
    intro st hc
    rw [List.foldl_cons, List.foldl_cons,
      processPixelTc2_eq search _ _ st p hc (h p).1 (h p).2]
    exact ih _ (by rw [processPixelB_snd_length]; exact hc)

theorem tiledOrder_flatten (T n : Nat) :
    ∀ k : Nat, (List.range k).flatMap (tileIndices T n) =
      List.range' 0 (min (k * T) n) := by
  intro k
  induction k with
  | zero => simp
  | succ k ih =>
    rw [List.range_succ, List.flatMap_append, ih]
    have hsingle : [k].flatMap (tileIndices T n) = tileIndices T n k := by simp
    rw [hsingle]
    unfold tileIndices
    rcases le_or_lt n (k * T) with h | h
    · have e1 : min (k * T) n = n := by omega
      have e2 : min (k * T + T) n = n := by omega
      have e3 : min ((k + 1) * T) n = n := by
        have h4 : (k + 1) * T = k * T + T := by ring
        omega
      have e5 : n - k * T = 0 := by omega
      rw [e1, e2, e3, e5]
      simp
    · have e1 : min (k * T) n = k * T := by omega
      have e4 : (k + 1) * T = k * T + T := by ring
      rw [e1, e4]
      have happ := List.range'_append 0 (k * T) (min (k * T + T) n - k * T) 1
      simp only [Nat.one_mul, Nat.zero_add] at happ
      rw [happ]
      congr 1
      omega

theorem tiledOrder_eq_range (T n : Nat) (hT : 0 < T) :
    tiledOrder T n = List.range n := by
  unfold tiledOrder
  rw [tiledOrder_flatten T n ((n + T - 1) / T)]
  have hdm := Nat.div_add_mod (n + T - 1) T
  have hlt : (n + T - 1) % T < T := Nat.mod_lt _ hT
  have hge : n ≤ (n + T - 1) / T * T := by
    have hcomm : (n + T - 1) / T * T = T * ((n + T - 1) / T) := Nat.mul_comm _ _
    omega
  have hmin : min ((n + T - 1) / T * T) n = n := by omega
  rw [hmin, List.range_eq_range']

theorem processPixelTc4_eq (search : List Pixel) (T : Nat) (hT : 0 < T)
    (st : List Pixel × List Nat) (p : Nat) (hc : st.2.length = search.length) :
    processPixelTc4 search T st p = processPixelB search st p := by
  have hperm : (tiledOrder T search.length).Perm (List.range search.length) := by
    rw [tiledOrder_eq_range T search.length hT]
  simp only [processPixelTc4, processPixelB]
  rw [transformAtTc2_eq]
  rw [searchFold_perm_eq search _ _ st.2 hc hperm]
  rw [searchFold_perm_eq search _ _ _ (by rw [searchStep_length]; exact hc) hperm]

theorem processFoldTc4_eq (search : List Pixel) (T : Nat) (hT : 0 < T) :
    ∀ (ps : List Nat) (st : List Pixel × List Nat),
      st.2.length = search.length →
      ps.foldl (processPixelTc4 search T) st =
        ps.foldl (processPixelB search) st := by
  intro ps
  induction ps with
  | nil => intro st hc; rfl
  | cons p ps ih =>
    intro st hc
    rw [List.foldl_cons, List.foldl_cons, processPixelTc4_eq search T hT st p hc]
    exact ih _ (by rw [processPixelB_snd_length]; exact hc)

/-- C3: on the one-row Grid [(10,20,30),(40,50,60),(70,80,90)] with search
list [(10,20,30)], the p = 0 iteration of process-b: the pre-search raises the
single counter to 1; the bleed is skipped (the pixel enters Greyscale
unchanged); Greyscale gives (20,20,20); XOR 13 gives (25,25,25); the
post-search does not match, leaving the counter at 1. -/
theorem c3_concrete_scenario :
    searchStep [⟨10, 20, 30⟩] ⟨10, 20, 30⟩ [0] = [1] ∧
    transformAtB [⟨10, 20, 30⟩, ⟨40, 50, 60⟩, ⟨70, 80, 90⟩] 0 =
      [⟨25, 25, 25⟩, ⟨40, 50, 60⟩, ⟨70, 80, 90⟩] ∧
    Greyscale ⟨10, 20, 30⟩ = ⟨20, 20, 20⟩ ∧
    XOR ⟨20, 20, 20⟩ 13 = ⟨25, 25, 25⟩ ∧
    searchStep [⟨10, 20, 30⟩] ⟨25, 25, 25⟩ [1] = [1] ∧
    processPixelB [⟨10, 20, 30⟩]
      ([⟨10, 20, 30⟩, ⟨40, 50, 60⟩, ⟨70, 80, 90⟩], [0]) 0 =
      ([⟨25, 25, 25⟩, ⟨40, 50, 60⟩, ⟨70, 80, 90⟩], [1]) := by
  decide

/-- C7: process-b.c only rejects ac < 3, so the invocation with exactly two
user arguments (ac = 3) passes the usage check and proceeds with a NULL
search filename (av[3]) instead of terminating through the fatal-error path. -/
theorem c7_two_arguments_not_rejected :
    parseArgsB ["process-b", "in.bin", "out.bin"] =
      .proceed (some "in.bin") (some "out.bin") none ∧
    parseArgsB ["process-b", "in.bin"] = .usageError := by
  decide

/-- C8: in process-b.c a NULL return from the counter malloc with a nonempty
search list reaches the zero-initialisation loop and dereferences the null
pointer, while the same situation in process-b_tc3.c reports through
FatalError before any use of the pointer. -/
theorem c8_counter_malloc_unchecked :
    initCounterB none 1 = .nullDeref ∧
    initCounterTc3 none 1 = .fatal "malloc failed for counter" := by
  decide

/-- C1: the phased barrier executor (process-b_tc2), sequentialized with an
arbitrary order of search-index visits per phase (covering every thread count
and every scheduling policy/chunk combination, each of which visits every
search index exactly once), has a per-pixel cycle (capture, search-pre,
bleed+greyscale+XOR, capture, search-post) equal to the sequential
reference's per-pixel function, and hence the whole run produces the same
transformed row and final counters as process-b. -/
theorem c1_phased_executor_equals_reference (search : List Pixel)
    (ords : Nat → List Nat × List Nat)
    (h : ∀ p, ((ords p).1).Perm (List.range search.length) ∧
      ((ords p).2).Perm (List.range search.length)) :
    (∀ (st : List Pixel × List Nat) (p : Nat), st.2.length = search.length →
      processPixelTc2 search (ords p).1 (ords p).2 st p =
        processPixelB search st p) ∧
    (∀ (row : List Pixel) (c : List Nat), c.length = search.length →
      processRowTc2 search ords row c = processRowB search row c) := by
  constructor
  · intro st p hc
    exact processPixelTc2_eq search _ _ st p hc (h p).1 (h p).2
  · intro row c hc
    unfold processRowTc2 processRowB processLoopB
    exact processFoldTc2_eq search ords h (List.range row.length) (row, c) hc

theorem c1_witness :
    processRowTc2 [⟨1, 2, 3⟩, ⟨4, 5, 6⟩] (fun _ => ([1, 0], [1, 0]))
      [⟨1, 2, 3⟩, ⟨7, 8, 9⟩] [0, 0] =
    processRowB [⟨1, 2, 3⟩, ⟨4, 5, 6⟩] [⟨1, 2, 3⟩, ⟨7, 8, 9⟩] [0, 0] :=
  (c1_phased_executor_equals_reference [⟨1, 2, 3⟩, ⟨4, 5, 6⟩]
    (fun _ => ([1, 0], [1, 0]))
    (fun _ => ⟨(by decide : ([1, 0] : List Nat).Perm (List.range 2)),
      (by decide : ([1, 0] : List Nat).Perm (List.range 2))⟩)).2 _ _
    (by decide)

/-- C2: in the sequential reference the bleed step is skipped entirely at
p = 0 (the pixel goes straight to greyscale and XOR), and for p > 0 the
source's pixlen/startpix computation agrees with the spec's description:
n = min(10, p) pixels at columns p-n .. p-1 are averaged with truncating
division and a third of the difference is added; in particular for p < 10 the
window holds exactly p pixels (min 10 p = p). -/
theorem c2_bleed_matches_spec (row : List Pixel) (p : Nat) :
    transformAtB row 0 = row.set 0 (XOR (Greyscale (row.getD 0 zeroPixel)) 13) ∧
    (0 < p → bleedValue row p = bleedSpecValue row p) ∧
    (0 < p → p < 10 → min 10 p = p ∧ p - min 10 p = 0) := by
  refine ⟨?_, ?_, fun h1 h2 => ⟨by omega, by omega⟩⟩
  · simp only [transformAtB]
    rw [if_neg (by omega : ¬ (0 : Nat) < 0)]
    cases row with
    | nil => rfl
    | cons r0 rs => rfl
  · intro hp
    have e1 : (if p > 10 then 10 else p) = min 10 p := by split <;> omega
    have e2 : (if p > 10 then p - 10 else 0) = p - min 10 p := by split <;> omega
    have e4 : p - (p - min 10 p) = min 10 p := by omega
    simp only [bleedValue, bleedSpecValue, e1, e2, e4]

theorem c2_witness :
    0 < 1 ∧ bleedValue [⟨3, 3, 3⟩, ⟨9, 9, 9⟩] 1 =
      bleedSpecValue [⟨3, 3, 3⟩, ⟨9, 9, 9⟩] 1 :=
  ⟨by decide, (c2_bleed_matches_spec [⟨3, 3, 3⟩, ⟨9, 9, 9⟩] 1).2.1 (by decide)⟩

/-- C4: for any partition of the grid rows among threads (any scheduling),
the thread-local-accumulate-then-merge strategy of process-a_tc2 produces the
same final counters as accumulating every match directly into the shared
counter in row order (the sequentialization of process-a_tc3's
atomic-per-match strategy): the merged sum of per-thread partial counts
equals the directly accumulated count. -/
theorem c4_merge_strategies_agree (search : List Pixel)
    (rows : List (List Pixel)) (parts : List (List (List Pixel)))
    (c : List Nat) (hc : c.length = search.length)
    (hp : parts.flatten.Perm rows) :
    mergeLocals search parts c = (processGrid search rows c).2 := by
  rw [mergeLocals_eq search parts c hc, processGrid_snd search rows c hc,
    sumCtrs_perm search hp]

theorem c4_witness :
    ([[[(⟨1, 1, 1⟩ : Pixel)]], [[⟨0, 0, 0⟩]]] :
      List (List (List Pixel))).flatten.Perm [[⟨0, 0, 0⟩], [⟨1, 1, 1⟩]] ∧
    mergeLocals [⟨0, 0, 0⟩] [[[⟨1, 1, 1⟩]], [[⟨0, 0, 0⟩]]] [0] =
      (processGrid [⟨0, 0, 0⟩] [[⟨0, 0, 0⟩], [⟨1, 1, 1⟩]] [0]).2 :=
  ⟨by decide, c4_merge_strategies_agree [⟨0, 0, 0⟩] [[⟨0, 0, 0⟩], [⟨1, 1, 1⟩]]
    [[[⟨1, 1, 1⟩]], [[⟨0, 0, 0⟩]]] [0] (by decide) (by decide)⟩

/-- C5: for any tile size T ≥ 1 the tile decomposition of process-b_tc4
visits every search index exactly once per phase (the flattened tile order is
exactly 0, ..., search.length-1), and the whole tiled run equals the untiled
sequential reference, so the final counters are the same for every T. -/
theorem c5_tile_size_invariance (search : List Pixel) (T : Nat) (hT : 1 ≤ T) :
    tiledOrder T search.length = List.range search.length ∧
    (∀ (row : List Pixel) (c : List Nat), c.length = search.length →
      processRowTc4 search T row c = processRowB search row c) := by
  refine ⟨tiledOrder_eq_range T search.length hT, ?_⟩
  intro row c hc
  unfold processRowTc4 processRowB processLoopB
  exact processFoldTc4_eq search T hT (List.range row.length) (row, c) hc

theorem c5_witness :
    0 < 3 ∧ processRowTc4 [⟨1, 2, 3⟩] 3 [⟨1, 2, 3⟩, ⟨2, 2, 2⟩] [0] =
      processRowB [⟨1, 2, 3⟩] [⟨1, 2, 3⟩, ⟨2, 2, 2⟩] [0] :=
  ⟨by decide, (c5_tile_size_invariance [⟨1, 2, 3⟩] 3 (by decide)).2 _ _
    (by decide)⟩

/-- C6: the transformed contents of row r and row r's counter contribution
depend only on the original pixels of row r and the search list: two grids
agreeing at row r yield the same transformed row r and the same per-row
counts there, and the final counters decompose as the incoming counters plus
the sum of the independent per-row contributions. -/
theorem c6_row_independence (search : List Pixel)
    (rows1 rows2 : List (List Pixel)) (cnt1 cnt2 : List Nat) (r : Nat)
    (h : rows1[r]? = rows2[r]?) :
    ((processGrid search rows1 cnt1).1)[r]? =
      ((processGrid search rows2 cnt2).1)[r]? ∧
    rows1[r]?.map (rowCounts search) = rows2[r]?.map (rowCounts search) ∧
    (cnt1.length = search.length →
      (processGrid search rows1 cnt1).2 = addCtr cnt1 (sumCtrs search rows1)) := by
  refine ⟨?_, by rw [h], fun hc => processGrid_snd search rows1 cnt1 hc⟩
  rw [processGrid_fst, processGrid_fst, List.getElem?_map, List.getElem?_map, h]

theorem c6_witness :
    ((processGrid [⟨0, 0, 0⟩] [[⟨1, 1, 1⟩], [⟨2, 2, 2⟩]] [0]).1)[1]? =
      ((processGrid [⟨0, 0, 0⟩] [[⟨9, 9, 9⟩], [⟨2, 2, 2⟩]] [0]).1)[1]? ∧
    (processGrid [⟨0, 0, 0⟩] [[⟨1, 1, 1⟩], [⟨2, 2, 2⟩]] [0]).2 =
      addCtr [0] (sumCtrs [⟨0, 0, 0⟩] [[⟨1, 1, 1⟩], [⟨2, 2, 2⟩]]) :=
  ⟨(c6_row_independence [⟨0, 0, 0⟩] [[⟨1, 1, 1⟩], [⟨2, 2, 2⟩]]
      [[⟨9, 9, 9⟩], [⟨2, 2, 2⟩]] [0] [0] 1 (by decide)).1,
   (c6_row_independence [⟨0, 0, 0⟩] [[⟨1, 1, 1⟩], [⟨2, 2, 2⟩]]
      [[⟨9, 9, 9⟩], [⟨2, 2, 2⟩]] [0] [0] 1 (by decide)).2.2 (by decide)⟩

theorem processFold_untouched_pair (search : List Pixel) (ps : List Nat)
    (st : List Pixel × List Nat) (j : Nat) (h : ∀ q ∈ ps, q ≠ j) :
    ((ps.foldl (processPixelB search) st).1)[j]? = (st.1)[j]? :=
  processFold_untouched search ps st.1 st.2 j h

theorem range_split (n p : Nat) (hp : p < n) :
    List.range n = List.range (p + 1) ++ List.range' (p + 1) (n - (p + 1)) := by
  rw [List.range_eq_range', List.range_eq_range']
  have happ := List.range'_append 0 (p + 1) (n - (p + 1)) 1
  simp only [Nat.one_mul, Nat.zero_add] at happ
  rw [happ]
  congr 1
  omega

theorem processRowB_committed (search : List Pixel) (row : List Pixel)
    (c : List Nat) (p : Nat) (hp : p < row.length) :
    ((processRowB search row c).1)[p]? =
      (transformAtB ((processLoopB search row c p).1) p)[p]? := by
  unfold processRowB processLoopB
  rw [range_split row.length p hp, List.foldl_append]
  have h2 : ((List.range (p + 1)).foldl (processPixelB search) (row, c)).1 =
      transformAtB (((List.range p).foldl (processPixelB search) (row, c)).1)
        p := by
    rw [List.range_succ, List.foldl_append]
    rfl
  exact (processFold_untouched_pair search _ _ p
    (by intro q hq; have := List.mem_range'_1.mp hq; omega)).trans (by rw [h2])

theorem getD_some (l : List Nat) (j : Nat) (h : j < l.length) :
    l[j]? = some (l.getD j 0) := by
  rw [List.getElem?_eq_getElem h, List.getD_eq_getElem?_getD,
    List.getElem?_eq_getElem h]
  rfl

theorem searchStep_getD_ge (search : List Pixel) (px : Pixel) (cnt : List Nat)
    (j : Nat) : cnt.getD j 0 ≤ (searchStep search px cnt).getD j 0 := by
  rw [List.getD_eq_getElem?_getD, List.getD_eq_getElem?_getD,
    searchStep_getElem?]
  cases cnt[j]? <;> simp

theorem presearch_counts_padding (search : List Pixel) (row : List Pixel)
    (cnt : List Nat) (p j : Nat) (hpx : row.getD p zeroPixel = zeroPixel)
    (hj : search[j]? = some zeroPixel) (hjc : j < cnt.length) :
    ((processLoopB search row cnt p).2).getD j 0 + 1 ≤
      ((processLoopB search row cnt (p + 1)).2).getD j 0 := by
  unfold processLoopB
  rw [List.range_succ, List.foldl_append]
  set st := (List.range p).foldl (processPixelB search) (row, cnt) with hst
  have hlen : st.2.length = cnt.length :=
    processFold_snd_length search (List.range p) row cnt
  have hut : (st.1)[p]? = row[p]? :=
    processFold_untouched search (List.range p) row cnt p
      (by intro q hq; have := List.mem_range.mp hq; omega)
  have hpx' : st.1.getD p zeroPixel = zeroPixel := by
    rw [List.getD_eq_getElem?_getD, hut, ← List.getD_eq_getElem?_getD, hpx]
  have hhit : hits search zeroPixel j = 1 := by simp [hits, hj]
  have hpre : (searchStep search (st.1.getD p zeroPixel) st.2).getD j 0 =
      st.2.getD j 0 + 1 := by
    rw [hpx', List.getD_eq_getElem?_getD, searchStep_getElem?,
      getD_some st.2 j (by omega), hhit]
    rfl
  have hge := searchStep_getD_ge search ((transformAtB st.1 p).getD p zeroPixel)
    (searchStep search (st.1.getD p zeroPixel) st.2) j
  have hfinal : st.2.getD j 0 + 1 ≤ ((processPixelB search st p).2).getD j 0 := by
    simp only [processPixelB]
    omega
  exact hfinal

theorem imageDataShape_pad (length linesize : Nat) (hls : 0 < linesize)
    (hrem : length % linesize ≠ 0) :
    imageDataShape length linesize =
      (length / linesize + 1, length + (linesize - length % linesize),
        linesize) := by
  have h3 : length / linesize * linesize = linesize * (length / linesize) :=
    Nat.mul_comm _ _
  have h2 := Nat.div_add_mod length linesize
  have h4 := Nat.mod_le length linesize
  have h1 : length - length / linesize * linesize = length % linesize := by omega
  simp only [imageDataShape]
  rw [if_neg (by omega : ¬ linesize = 0), h1,
    if_pos (by omega : 0 < length % linesize)]

theorem sum_map_const (m : Nat) : ∀ (l : List Nat),
    (l.map (fun _ => m)).sum = l.length * m := by
  intro l
  induction l with
  | nil => simp
  | cons a l ih => simp [ih, Nat.succ_mul, Nat.add_comm]

theorem WriteFile_length (img : Image) :
    (WriteFile img).length = img.lines * img.linesize := by
  unfold WriteFile
  rw [List.length_flatMap]
  have hcong : List.map (List.length ∘ fun l => (List.range img.linesize).map
      (fun p => (img.pixels.getD l []).getD p zeroPixel)) (List.range img.lines)
      = List.map (fun _ => img.linesize) (List.range img.lines) := by
    apply List.map_congr_left
    intro a _
    simp
  rw [hcong, sum_map_const, List.length_range]

theorem map_range_getD {α : Type} (n : Nat) (f : Nat → α) (d : α) (l : Nat)
    (hl : l < n) : ((List.range n).map f).getD l d = f l := by
  rw [List.getD_eq_getElem?_getD, List.getElem?_map, List.getElem?_range hl]
  rfl

theorem LoadFile_pixel (data : List Pixel) (linesize : Nat) (l p : Nat)
    (hl : l < (LoadFile data linesize).lines)
    (hp : p < (LoadFile data linesize).linesize) :
    (((LoadFile data linesize).pixels).getD l []).getD p zeroPixel =
      data.getD (l * (LoadFile data linesize).linesize + p) zeroPixel := by
  simp only [LoadFile] at hl hp ⊢
  rw [map_range_getD _ _ _ l hl, map_range_getD _ _ _ p hp]

/-- C9: the transform/search pass of process-b mutates only pixel channel
values: the image's shape fields (length, lines, linesize) are unchanged, the
search image is returned completely unchanged, and the pixel storage keeps
its shape (same number of rows, each row the same length). -/
theorem c9_transform_mutates_only_pixels (img search : Image) (c : List Nat) :
    (transformPassB (img, search, c)).1.length = img.length ∧
    (transformPassB (img, search, c)).1.lines = img.lines ∧
    (transformPassB (img, search, c)).1.linesize = img.linesize ∧
    (transformPassB (img, search, c)).2.1 = search ∧
    ((transformPassB (img, search, c)).1.pixels).length = img.pixels.length ∧
    (∀ l, (((transformPassB (img, search, c)).1.pixels).getD l []).length =
      (img.pixels.getD l []).length) := by
  refine ⟨rfl, rfl, rfl, rfl, by simp [transformPassB, List.length_set], ?_⟩
  intro l
  simp only [transformPassB]
  by_cases h0 : l = 0
  · subst h0
    by_cases hp : 0 < img.pixels.length
    · rw [List.getD_eq_getElem?_getD, List.getElem?_set_self hp]
      exact processFold_fst_length (search.pixels.getD 0 [])
        (List.range img.linesize) (img.pixels.getD 0 []) c
    · have he : img.pixels = [] := List.length_eq_zero.mp (by omega)
      rw [he]
      rfl
  · rw [List.getD_eq_getElem?_getD, List.getElem?_set_ne (fun he => h0 he.symm),
      ← List.getD_eq_getElem?_getD]

/-- C10: loading a stream whose pixel count is not a multiple of a nonzero
row width pads the grid to the next multiple of the row width with (0,0,0)
pixels: the padded length is source length + (width - source length % width),
strictly larger than the source length and divisible by the width; every
position past the source data holds the zero pixel; the written output of the
row-parallel run has the padded pixel count, not the source's; and every
position of a row (padding included) is processed like any other: when the
pixel at column p is (0,0,0) its pre-search adds one to the counter of a
(0,0,0) search entry before the transform, and the final pixel at every
column p is the bleed + greyscale + XOR transform applied at step p. -/
theorem c10_zero_padding (data : List Pixel) (linesize : Nat)
    (search : List Pixel) (c : List Nat) (hls : 0 < linesize)
    (hrem : data.length % linesize ≠ 0) :
    (LoadFile data linesize).length =
      data.length + (linesize - data.length % linesize) ∧
    data.length < (LoadFile data linesize).length ∧
    (LoadFile data linesize).length % linesize = 0 ∧
    (LoadFile data linesize).linesize = linesize ∧
    (LoadFile data linesize).lines * (LoadFile data linesize).linesize =
      (LoadFile data linesize).length ∧
    (∀ l p, p < linesize → data.length ≤ l * linesize + p →
      (((LoadFile data linesize).pixels).getD l []).getD p zeroPixel =
        zeroPixel) ∧
    (WriteFile (processGridA search (LoadFile data linesize) c).1).length =
      (LoadFile data linesize).length ∧
    (∀ (row : List Pixel) (cnt : List Nat) (p j : Nat),
      row.getD p zeroPixel = zeroPixel → search[j]? = some zeroPixel →
      j < cnt.length →
      ((processLoopB search row cnt p).2).getD j 0 + 1 ≤
        ((processLoopB search row cnt (p + 1)).2).getD j 0) ∧
    (∀ (row : List Pixel) (cnt : List Nat) (p : Nat), p < row.length →
      ((processRowB search row cnt).1)[p]? =
        (transformAtB ((processLoopB search row cnt p).1) p)[p]?) := by
  have hshape := imageDataShape_pad data.length linesize hls hrem
  have hlen : (LoadFile data linesize).length =
      data.length + (linesize - data.length % linesize) := by
    show (imageDataShape data.length linesize).2.1 = _
    rw [hshape]
  have hlines : (LoadFile data linesize).lines = data.length / linesize + 1 := by
    show (imageDataShape data.length linesize).1 = _
    rw [hshape]
  have hlsz : (LoadFile data linesize).linesize = linesize := by
    show (imageDataShape data.length linesize).2.2 = _
    rw [hshape]
  have hmlt : data.length % linesize < linesize := Nat.mod_lt _ hls
  have hml : data.length % linesize ≤ data.length := Nat.mod_le _ _
  have h5 : (data.length / linesize + 1) * linesize =
      data.length / linesize * linesize + linesize := by ring
  have h3 : data.length / linesize * linesize =
      linesize * (data.length / linesize) := Nat.mul_comm _ _
  have hdm := Nat.div_add_mod data.length linesize
  have hmul : (LoadFile data linesize).lines * (LoadFile data linesize).linesize
      = (LoadFile data linesize).length := by
    rw [hlines, hlsz, hlen]
    omega
  refine ⟨hlen, by omega, ?_, hlsz, hmul, ?_, ?_,
    fun row cnt p j h1 h2 h3 =>
      presearch_counts_padding search row cnt p j h1 h2 h3,
    fun row cnt p hp => processRowB_committed search row cnt p hp⟩
  · rw [hlen]
    have hexp : data.length + (linesize - data.length % linesize) =
        (data.length / linesize + 1) * linesize := by omega
    rw [hexp, Nat.mul_mod_left]
  · intro l p hp hge
    by_cases hl : l < (LoadFile data linesize).lines
    · rw [LoadFile_pixel data linesize l p hl (by rw [hlsz]; exact hp), hlsz]
      exact List.getD_eq_default _ _ hge
    · have hplen : ((LoadFile data linesize).pixels).length =
          (LoadFile data linesize).lines := by
        simp only [LoadFile, List.length_map, List.length_range]
      have hrow : (LoadFile data linesize).pixels.getD l [] = [] :=
        List.getD_eq_default _ _ (by omega)
      rw [hrow]
      rfl
  · rw [WriteFile_length]
    exact hmul

theorem c10_witness :
    (0 < 2 ∧ ([(⟨5, 5, 5⟩ : Pixel)] : List Pixel).length % 2 ≠ 0) ∧
    (LoadFile [⟨5, 5, 5⟩] 2).length =
      ([(⟨5, 5, 5⟩ : Pixel)] : List Pixel).length +
        (2 - ([(⟨5, 5, 5⟩ : Pixel)] : List Pixel).length % 2) :=
  ⟨⟨by decide, by decide⟩,
    (c10_zero_padding [⟨5, 5, 5⟩] 2 [⟨0, 0, 0⟩] [0] (by decide) (by decide)).1⟩
